import Mathlib

/-!
# Verification of the embedded HTTP server of `BackModeloIA`

This file gives a shallow embedding, in Lean 4, of the single-file HTTP
server of `src/ia-cpp/third_party/crow_all.h` (namespace `crow`), and
proves or refutes the frozen specification claims about it.

Modelling conventions:

* Bytes are `Char` (the server works on ASCII `std::string` data); byte
  sequences are `List Char`.
* The client socket is a `Socket`, the list of byte segments that
  successive `read` calls will deliver.  A `read` with capacity `cap`
  returns the head segment, truncated at `cap` bytes (the rest of the
  segment stays queued); an exhausted socket returns `[]`, which models
  `read(...) <= 0`.
* `std::istringstream` is `IStream`: the not-yet-consumed characters,
  the `gcount` counter and the fail state.  Formatted extraction
  (`operator>>`) and the free `std::getline` overload for `std::string`
  do not touch `gcount`; only the member `read` does.  (Checked against
  the C++ standard semantics: `std::getline(istream, string)` behaves
  as an unformatted input function *except that it does not change
  `gcount`*.)
* Exceptions are explicit: `std::stoul` is a partial parse returning
  `Option Nat`; the uncaught `std::stoul` exception inside
  `handle_client`'s header loop surfaces as the `.exn` outcome of the
  produced `Trace` (in C++ it escapes the detached thread and
  terminates the process, so no close and no write happen).
-/

namespace Crow

/-! ## Character helpers (`::toupper`, `isspace`, digits) -/

/-- The C `toupper` of the default locale, applied character-wise
(source: `crow_all.h` line 95, `to_upper`). -/
def toUpperChar (c : Char) : Char :=
  if 'a' ≤ c ∧ c ≤ 'z' then Char.ofNat (c.toNat - 32) else c

/-- Definition of `SimpleApp::to_upper` (line 95). -/
def to_upper (s : List Char) : List Char := s.map toUpperChar

/-- The C `isspace` of the default locale, the whitespace set used both by
`operator>>` extraction and by `std::stoul`. -/
def isSpaceC (c : Char) : Bool :=
  c = ' ' || c = '\t' || c = '\n' || c = '\x0b' || c = '\x0c' || c = '\r'

/-- The numeric value of a digit character for a given base, as accepted
by `strtoul`/`std::stoul` (decimal digits, then letters). -/
def digitVal? (base : Nat) (c : Char) : Option Nat :=
  let v : Option Nat :=
    if '0' ≤ c ∧ c ≤ '9' then some (c.toNat - 48)
    else if 'a' ≤ c ∧ c ≤ 'z' then some (c.toNat - 87)
    else if 'A' ≤ c ∧ c ≤ 'Z' then some (c.toNat - 55)
    else none
  match v with
  | some d => if d < base then some d else none
  | none => none

/-- The hexadecimal prefix rule of base-16 `std::stoul`: the prefix is
consumed only when a hexadecimal digit follows it. -/
def strip0x (s : List Char) : List Char :=
  match s with
  | a :: x :: r =>
    if (a = '0' && (x = 'x' || x = 'X') && (match r with
        | [] => false
        | c :: _ => (digitVal? 16 c).isSome)) = true then r else a :: x :: r
  | _ => s

/-- Model of `std::stoul(s, nullptr, base)`.  Here `none` models a thrown
`std::invalid_argument` (no digits) or `std::out_of_range`
(value above `ULONG_MAX`); a leading minus sign wraps modulo `2 ^ 64`
(`unsigned long` is 64-bit on the target platform). -/
def stoul (base : Nat) (s : List Char) : Option Nat :=
  let s1 := s.dropWhile isSpaceC
  let (neg, s2) : Bool × List Char :=
    match s1 with
    | c :: r =>
      if c = '-' then (true, r)
      else if c = '+' then (false, r)
      else (false, c :: r)
    | [] => (false, [])
  let s3 := if base = 16 then strip0x s2 else s2
  let digs := s3.takeWhile (fun c => (digitVal? base c).isSome)
  if digs = [] then none
  else
    let v := digs.foldl (fun a c => a * base + (digitVal? base c).getD 0) 0
    if v ≥ 2 ^ 64 then none
    else some (if neg then (2 ^ 64 - v % 2 ^ 64) % 2 ^ 64 else v)

/-- Fuel-driven decimal printer; `fuel ≥ n` makes it total on `n`
(each step divides `n` by ten). -/
def decDigitsAux : Nat → Nat → List Char
  | 0, _ => []
  | fuel + 1, n =>
    if n < 10 then [Char.ofNat (48 + n)]
    else decDigitsAux fuel (n / 10) ++ [Char.ofNat (48 + n % 10)]

/-- Decimal digit characters of a natural number, as printed by
`operator<<` on an integer. -/
def decDigits (n : Nat) : List Char := decDigitsAux (n + 1) n

/-- Printing of an `int` by `operator<<` (the response code is a C++ `int`). -/
def intToDec (i : Int) : List Char :=
  if i < 0 then '-' :: decDigits i.natAbs else decDigits i.natAbs

/-! ## HTTP data model (`crow::HTTPMethod`, `crow::response`) -/

/-- Definition of `crow::HTTPMethod` (line 22). -/
inductive HTTPMethod where
  | GET
  | POST
  | OPTIONS
deriving DecidableEq, Repr

/-- Definition of `crow::response` (lines 28-37): status code, body and a
`std::map<std::string, std::string>` of headers.  The map is its sorted
association list (`std::map` iterates keys in ascending lexicographic
byte order). -/
structure response where
  code : Int
  body : List Char
  headers : List (List Char × List Char)
deriving DecidableEq, Repr

/-- Lexicographic byte order on keys, as `std::string`'s `operator<`. -/
def keyLt : List Char → List Char → Bool
  | [], [] => false
  | [], _ :: _ => true
  | _ :: _, [] => false
  | a :: as, b :: bs =>
    if a.toNat < b.toNat then true
    else if b.toNat < a.toNat then false
    else keyLt as bs

/-- Model of `std::map::operator[]` followed by assignment (`headers[k] = v`):
insert keeping the list sorted and keys unique. -/
def mapInsert (m : List (List Char × List Char)) (k v : List Char) :
    List (List Char × List Char) :=
  match m with
  | [] => [(k, v)]
  | (k', v') :: rest =>
    if keyLt k k' then (k, v) :: (k', v') :: rest
    else if k = k' then (k, v) :: rest
    else (k', v') :: mapInsert rest k v

/-- Model of `std::map::find` by exact (case-sensitive) key. -/
def mapFind (m : List (List Char × List Char)) (k : List Char) :
    Option (List Char) :=
  (m.find? (fun kv => decide (kv.1 = k))).map (·.2)

/-- Handlers as registered with the app: `crow::request` carries only
`body` (line 24-26), so a handler is a function of the body bytes. -/
abbrev Handler := List Char → response

/-! ## Router (`SimpleApp::add_route` and the dispatch of lines 259-270) -/

/-- Definition of `SimpleApp::Route` (lines 43-46), with the handler type abstracted
so that statements can compare registered handler values. -/
structure Route (α : Type) where
  path : List Char
  handlers : HTTPMethod → Option α

/-- Definition of `SimpleApp::add_route` (lines 64-71): the first route with an equal
path is updated (`handlers[method] = h` replaces any earlier handler for
that method); when none exists a fresh route is appended at the end. -/
def add_route {α : Type} (routes : List (Route α)) (p : List Char)
    (m : HTTPMethod) (h : α) : List (Route α) :=
  match routes with
  | [] => [⟨p, fun m' => if m' = m then some h else none⟩]
  | r :: rest =>
    if r.path = p then
      ⟨r.path, fun m' => if m' = m then some h else r.handlers m'⟩ :: rest
    else r :: add_route rest p m h

/-- Outcome of route resolution, mirroring lines 256-270: the response
starts as `404 Not Found`, becomes the handler result when the method is
registered for a matching path, and `405 Method Not Allowed` when only
the path matches. -/
inductive ResolveResult (α : Type) where
  | handler (h : α)
  | methodNotAllowed
  | notFound
deriving DecidableEq, Repr

/-- The dispatch decision of `handle_client` lines 259-270:
`std::find_if` locates the first route whose path equals the request
path exactly, then the method map is consulted. -/
def resolve {α : Type} (routes : List (Route α)) (p : List Char)
    (m : HTTPMethod) : ResolveResult α :=
  match routes.find? (fun r => decide (r.path = p)) with
  | none => .notFound
  | some r =>
    match r.handlers m with
    | some h => .handler h
    | none => .methodNotAllowed

/-- The method-token mapping of lines 261-263: `POST` and `OPTIONS` are
recognized, every other token (including `GET`) yields `GET`. -/
def methodOfToken (s : List Char) : HTTPMethod :=
  if s = "POST".data then .POST
  else if s = "OPTIONS".data then .OPTIONS
  else .GET

/-! ## Response serialization (lines 272-283) -/

/-- One emitted header line, `k: v` plus CRLF. -/
def headerLine (k v : List Char) : List Char :=
  k ++ ": ".data ++ v ++ "\r\n".data

/-- The serialization of lines 272-283: status line with a trailing
space, a default `Content-Type` unless the map holds one under exactly
that key, a computed `Content-Length`, then every stored header in map
order, a blank line and the body. -/
def serializeResponse (r : response) : List Char :=
  "HTTP/1.1 ".data ++ intToDec r.code ++ " \r\n".data
    ++ (if mapFind r.headers "Content-Type".data = none then
          "Content-Type: text/plain\r\n".data
        else [])
    ++ "Content-Length: ".data ++ decDigits r.body.length ++ "\r\n".data
    ++ (r.headers.flatMap fun kv => headerLine kv.1 kv.2)
    ++ "\r\n".data ++ r.body

/-! ## The input stream (`std::istringstream`) -/

/-- State of a `std::istringstream`: unread characters, the `gcount` counter
(set only by member unformatted reads; `operator>>` and the free
`std::getline` for `std::string` leave it unchanged), and the fail
state. -/
structure IStream where
  rem : List Char
  gcount : Nat := 0
  failed : Bool := false
deriving DecidableEq, Repr

/-- Formatted extraction of `ss >> tok` (line 186): skip whitespace, take
the maximal non-whitespace run; extraction of nothing sets the fail
state.  `gcount` is untouched. -/
def extractToken (s : IStream) : List Char × IStream :=
  if s.failed then ([], s)
  else
    let r1 := s.rem.dropWhile isSpaceC
    let tok := r1.takeWhile (fun c => !isSpaceC c)
    let rest := r1.dropWhile (fun c => !isSpaceC c)
    if tok = [] then ([], { s with rem := rest, failed := true })
    else (tok, { s with rem := rest })

/-- Member read `ss.read(buf, n)` (lines 103, 238): extracts up to `n`
characters, sets `gcount` to the number extracted and fails on a short
extraction. -/
def istreamReadN (s : IStream) (n : Nat) : List Char × IStream :=
  if s.failed then ([], { s with gcount := 0 })
  else
    let got := s.rem.take n
    (got, { rem := s.rem.drop n, gcount := got.length, failed := got.length < n })

/-! ## Header parsing (lines 184-209) -/

/-- The three framing-relevant header flags of lines 188-190. -/
structure HeadFields where
  content_length : Nat := 0
  has_chunked : Bool := false
  has_expect_continue : Bool := false
deriving DecidableEq, Repr

/-- Value trimming of lines 198-199: leading `" \t"` and trailing
`"\r\n "` characters are removed. -/
def trimValue (v : List Char) : List Char :=
  let v1 := v.dropWhile (fun c => c = ' ' || c = '\t')
  (v1.reverse.dropWhile (fun c => c = '\r' || c = '\n' || c = ' ')).reverse

/-- Processing of a single header line (lines 194-207).  A header line
without a colon is ignored; `Content-Length` goes through `std::stoul`,
whose exception (`.error`) is not caught anywhere in `handle_client`. -/
def parseHeaderLine (line : List Char) (f : HeadFields) :
    Except Unit HeadFields :=
  match line.findIdx? (· = ':') with
  | none => .ok f
  | some pos =>
    let key := to_upper (line.take pos)
    let val := trimValue (line.drop (pos + 1))
    if key = "CONTENT-LENGTH".data then
      match stoul 10 val with
      | some n => .ok { f with content_length := n }
      | none => .error ()
    else if key = "TRANSFER-ENCODING".data then
      .ok { f with has_chunked := to_upper val = "CHUNKED".data }
    else if key = "EXPECT".data then
      .ok { f with has_expect_continue := to_upper val = "100-CONTINUE".data }
    else .ok f

/-- The header loop `while (std::getline(ss, line) && line != "\r")`
(lines 193-209), written as a character-level scan: `acc` is the line
collected so far, a `'\n'` ends the current line, and exhaustion of the
stream ends the loop (`getline` fails once nothing can be extracted).
Returns the final flags and the characters left in the stream. -/
def headerScan (rem : List Char) (acc : List Char) (f : HeadFields) :
    Except Unit (HeadFields × List Char) :=
  match rem with
  | [] =>
    if acc = [] then .ok (f, [])
    else if acc = "\r".data then .ok (f, [])
    else
      match parseHeaderLine acc f with
      | .error e => .error e
      | .ok f' => .ok (f', [])
  | '\n' :: rest =>
    if acc = "\r".data then .ok (f, rest)
    else
      match parseHeaderLine acc f with
      | .error e => .error e
      | .ok f' => headerScan rest [] f'
  | c :: rest => headerScan rest (acc ++ [c]) f

/-- The parsed request head: the three request-line tokens, the framing
flags, and the stream state after the header loop. -/
structure Head where
  method : List Char
  path : List Char
  version : List Char
  fields : HeadFields
  ss : IStream
deriving DecidableEq, Repr

/-- Lines 184-209 of `handle_client`: request-line tokens via
`operator>>`, then the header loop.  This consumes only the bytes of
the single initial `read`; `.error` is the uncaught `std::stoul`
exception. -/
def parseHead (req : List Char) : Except Unit Head :=
  let s0 : IStream := { rem := req }
  let (method, s1) := extractToken s0
  let (path, s2) := extractToken s1
  let (version, s3) := extractToken s2
  if s3.failed then
    .ok { method := method, path := path, version := version,
          fields := {}, ss := s3 }
  else
    match headerScan s3.rem [] {} with
    | .error e => .error e
    | .ok (f, rest) =>
      .ok { method := method, path := path, version := version,
            fields := f, ss := { s3 with rem := rest } }

/-! ## The socket -/

/-- The byte segments that successive `read` calls on the client socket
will deliver. -/
abbrev Socket := List (List Char)

/-- A blocking `read` with buffer capacity `cap`: delivers the head
segment, truncated at `cap`; the undelivered remainder of a long
segment stays queued.  An empty result models `read(...) <= 0`. -/
def sockRead (cap : Nat) : Socket → List Char × Socket
  | [] => ([], [])
  | s :: rest => if s.length ≤ cap then (s, rest) else (s.take cap, s.drop cap :: rest)

/-- Measure of a socket: total queued bytes plus segment count. -/
def sockM : Socket → Nat
  | [] => 0
  | s :: rest => s.length + 1 + sockM rest

theorem sockRead_decrease (cap : Nat) (k : Socket)
    (h : (sockRead cap k).1 ≠ []) :
    2 * sockM (sockRead cap k).2 + (sockRead cap k).1.length < 2 * sockM k := by
  match k with
  | [] => simp [sockRead] at h
  | s :: rest =>
    by_cases hle : s.length ≤ cap
    · simp only [sockRead, if_pos hle, sockM]
      omega
    · simp only [sockRead, if_neg hle] at h ⊢
      have hcap : cap ≠ 0 := by
        intro hc
        subst hc
        simp at h
      simp only [sockM, List.length_take, List.length_drop]
      omega

/-! ## Chunked body decoding (`read_chunked_body`, lines 97-176) -/

/-- Does the list start with the two characters `"\r\n"`? -/
def startsCRLF : List Char → Bool
  | a :: b :: _ => a = '\r' && b = '\n'
  | _ => false

/-- Index of the first CRLF, as `buffer.find("\r\n")` of line 110. -/
def findCRLF : List Char → Option Nat
  | [] => none
  | l@(_ :: rest) => if startsCRLF l then some 0 else (findCRLF rest).map (· + 1)

theorem startsCRLF_length {l : List Char} (h : startsCRLF l = true) :
    2 ≤ l.length := by
  cases l with
  | nil => simp [startsCRLF] at h
  | cons a t =>
    cases t with
    | nil => simp [startsCRLF] at h
    | cons b t' => simp [List.length_cons]

theorem findCRLF_le {buffer : List Char} {pos : Nat}
    (h : findCRLF buffer = some pos) : pos + 2 ≤ buffer.length := by
  induction buffer generalizing pos with
  | nil => simp [findCRLF] at h
  | cons c rest ih =>
    rw [findCRLF] at h
    by_cases hs : startsCRLF (c :: rest) = true
    · rw [if_pos hs] at h
      have := startsCRLF_length hs
      simp only [Option.some.injEq] at h
      omega
    · rw [if_neg hs] at h
      simp only [Option.map_eq_some'] at h
      obtain ⟨p', hp', rfl⟩ := h
      have := ih hp'
      simp only [List.length_cons]
      omega

/-- Lines 101-105: the `while (ss.read(temp, ...) || ss.gcount() > 0)`
loop that drains every remaining character of the stream into the
chunk buffer (nothing if the stream is already in a fail state). -/
def drainStream (s : IStream) : List Char × IStream :=
  if s.failed then ([], { s with gcount := 0 })
  else (s.rem, { rem := [], gcount := 0, failed := true })

/-- The inner chunk-payload loop of lines 143-161: accumulate exactly
`chunk_size` payload bytes, taking what the buffer holds and issuing
socket reads for the rest.  `none` models `return ""` on a failed read;
otherwise the payload and the leftover buffer are returned.  `reads`
accumulates the data segments delivered by socket reads. -/
def readChunkData (chunk_size : Nat) (chunk_data buffer : List Char)
    (k : Socket) (reads : List (List Char)) :
    Option (List Char × List Char) × Socket × List (List Char) :=
  if chunk_data.length < chunk_size then
    if chunk_size - chunk_data.length ≤ buffer.length then
      let needed := chunk_size - chunk_data.length
      (some (chunk_data ++ buffer.take needed, buffer.drop needed), k, reads)
    else
      let cd := chunk_data ++ buffer
      let r := sockRead (min 1024 (chunk_size - cd.length)) k
      if hr : r.1 = [] then (none, r.2, reads)
      else readChunkData chunk_size cd r.1 r.2 (reads ++ [r.1])
  else (some (chunk_data, buffer), k, reads)
  termination_by 2 * sockM k + buffer.length
  decreasing_by
    have := sockRead_decrease (min 1024 (chunk_size - (chunk_data ++ buffer).length)) k hr
    omega

/-- Socket reads performed inside `readChunkData` never increase the
termination measure `2 * sockM + buffer length`. -/
theorem readChunkData_mu (μ : Nat) :
    ∀ (chunk_size : Nat) (chunk_data buffer : List Char) (k : Socket)
      (reads : List (List Char)),
      2 * sockM k + buffer.length ≤ μ →
      ∀ {cd' buf' : List Char} {k' : Socket} {reads' : List (List Char)},
        readChunkData chunk_size chunk_data buffer k reads =
          (some (cd', buf'), k', reads') →
        2 * sockM k' + buf'.length ≤ 2 * sockM k + buffer.length := by
  induction μ using Nat.strong_induction_on with
  | _ μ ih =>
    intro chunk_size chunk_data buffer k reads hmeas cd' buf' k' reads' h
    rw [readChunkData] at h
    by_cases hlt : chunk_data.length < chunk_size
    · rw [if_pos hlt] at h
      by_cases hle : chunk_size - chunk_data.length ≤ buffer.length
      · rw [if_pos hle] at h
        simp only [Prod.mk.injEq, Option.some.injEq] at h
        obtain ⟨⟨_, rfl⟩, rfl, _⟩ := h
        simp only [List.length_drop]
        omega
      · rw [if_neg hle] at h
        simp only at h
        by_cases hr : (sockRead (min 1024
            (chunk_size - (chunk_data ++ buffer).length)) k).1 = []
        · rw [dif_pos hr] at h
          simp at h
        · rw [dif_neg hr] at h
          have hdec := sockRead_decrease
            (min 1024 (chunk_size - (chunk_data ++ buffer).length)) k hr
          have hrec := ih
            (2 * sockM (sockRead (min 1024
              (chunk_size - (chunk_data ++ buffer).length)) k).2
              + (sockRead (min 1024
                (chunk_size - (chunk_data ++ buffer).length)) k).1.length)
            (by omega) chunk_size (chunk_data ++ buffer) _ _ _ le_rfl h
          omega
    · rw [if_neg hlt] at h
      simp only [Prod.mk.injEq, Option.some.injEq] at h
      obtain ⟨⟨_, rfl⟩, rfl, _⟩ := h
      omega

/-- The main chunk loop of lines 107-173: find a CRLF-terminated chunk
size line (issuing 1024-byte socket reads while none is buffered),
parse it as hexadecimal via `std::stoul` (a parse failure is caught and
becomes `return ""`), stop at a zero size (consuming a final CRLF whose
read result is ignored), otherwise read the payload, consume the chunk
terminator and loop.  Returns the accumulated body (`[]` doubles as the
error result, exactly as in the C++ source), the remaining socket and
the delivered read segments. -/
def chunkLoop (body buffer : List Char) (k : Socket)
    (reads : List (List Char)) : List Char × Socket × List (List Char) :=
  match hf : findCRLF buffer with
  | none =>
    let r := sockRead 1024 k
    if hr : r.1 = [] then ([], r.2, reads)
    else chunkLoop body (buffer ++ r.1) r.2 (reads ++ [r.1])
  | some pos =>
    let chunk_size_line := buffer.take pos
    let buf1 := buffer.drop (pos + 2)
    match stoul 16 chunk_size_line with
    | none => ([], k, reads)
    | some csz =>
      if csz = 0 then
        if 2 ≤ buf1.length then (body, k, reads)
        else
          let r := sockRead 2 k
          (body, r.2, if r.1 = [] then reads else reads ++ [r.1])
      else
        match hrc : readChunkData csz [] buf1 k reads with
        | (none, k', reads') => ([], k', reads')
        | (some (cd, buf2), k', reads') =>
          let body' := body ++ cd
          if 2 ≤ buf2.length then chunkLoop body' (buf2.drop 2) k' reads'
          else
            let r := sockRead 2 k'
            if hr2 : r.1.length = 2 then
              chunkLoop body' buf2 r.2 (reads' ++ [r.1])
            else ([], r.2, if r.1 = [] then reads' else reads' ++ [r.1])
  termination_by 2 * sockM k + buffer.length
  decreasing_by
  · have := sockRead_decrease 1024 k hr
    simp only [List.length_append]
    omega
  · have hmu := readChunkData_mu (2 * sockM k + (buffer.drop (pos + 2)).length)
      csz [] (buffer.drop (pos + 2)) k reads le_rfl hrc
    have hpos := findCRLF_le hf
    simp only [List.length_drop] at hmu ⊢
    omega
  · have hmu := readChunkData_mu (2 * sockM k + (buffer.drop (pos + 2)).length)
      csz [] (buffer.drop (pos + 2)) k reads le_rfl hrc
    have hpos := findCRLF_le hf
    have hdec : 2 * sockM (sockRead 2 k').2 + (sockRead 2 k').1.length
        < 2 * sockM k' := by
      apply sockRead_decrease
      intro hnil
      rw [hnil] at hr2
      simp at hr2
    simp only [List.length_drop] at hmu
    omega

/-- Definition of `SimpleApp::read_chunked_body` (lines 97-176): drain the stream
remainder into the working buffer, then run the chunk loop. -/
def read_chunked_body (ss : IStream) (k : Socket) :
    List Char × Socket × List (List Char) :=
  let buffer := (drainStream ss).1
  chunkLoop [] buffer k []

/-! ## Content-Length body reading (lines 229-253) -/

/-- The read loop of lines 242-253: pull bytes from the socket until
`content_length` bytes are accumulated; a read returning no bytes is
the incomplete-body error (`none`). -/
def readCLLoop (remaining : Nat) (acc : List Char) (k : Socket)
    (reads : List (List Char)) :
    Option (List Char) × Socket × List (List Char) :=
  if hrem : remaining = 0 then (some acc, k, reads)
  else
    let r := sockRead remaining k
    if hr : r.1 = [] then (none, r.2, reads)
    else if r.1.length = remaining then
      (some (acc ++ r.1), r.2, reads ++ [r.1])
    else
      readCLLoop (remaining - r.1.length) (acc ++ r.1) r.2 (reads ++ [r.1])
  termination_by remaining
  decreasing_by
    have : 0 < (sockRead remaining k).1.length := List.length_pos.mpr hr
    omega

/-! ## `handle_client` (lines 178-285) -/

/-- The observable interactions of one worker with its client socket,
in program order: body/chunk socket reads (the delivered bytes), the
interim `100 Continue` write of line 214, and the response writes of
lines 225, 248 and 283. -/
inductive Event where
  | read (bytes : List Char)
  | interim (s : List Char)
  | writeOut (s : List Char)
deriving DecidableEq, Repr

/-- How the worker ends: `done` is a normal return from
`handle_client`; `exn` is the uncaught `std::stoul` exception of line
202, which escapes the detached thread (`std::terminate`), so the
worker reaches neither a write nor `close`. -/
inductive OutcomeKind where
  | done
  | exn
deriving DecidableEq, Repr

/-- The observable result of `handle_client` on one connection:
the event list, the body handed to an invoked handler (`none` when no
handler ran), whether `close(client)` was reached, the outcome kind,
and the parsed request head (`none` if the initial read failed or the
header loop threw). -/
structure Trace where
  events : List Event
  dispatched : Option (List Char)
  closed : Bool
  outcome : OutcomeKind
  head : Option Head
deriving DecidableEq, Repr

/-- Line 213: the interim response text. -/
def contResp : List Char := "HTTP/1.1 100 Continue\r\n\r\n".data

/-- Line 224: the synthesized invalid-chunked-body response. -/
def errChunked : List Char :=
  ("HTTP/1.1 400 Bad Request\r\nContent-Type: text/plain\r\n"
    ++ "Content-Length: 32\r\n\r\nBad Request: invalid chunked body").data

/-- Line 247: the synthesized incomplete-body response. -/
def errIncomplete : List Char :=
  ("HTTP/1.1 400 Bad Request\r\nContent-Type: text/plain\r\n"
    ++ "Content-Length: 35\r\n\r\nBad Request: incomplete body").data

/-- Lines 256-283: build the request from the body, resolve the route
(`resp` starts as `404 Not Found` and is replaced on a path or
path-and-method match), serialize and write the response, close. -/
def dispatchAndRespond (routes : List (Route Handler)) (h : Head)
    (body : List Char) (ev : List Event) : Trace :=
  match resolve routes h.path (methodOfToken h.method) with
  | .handler hd =>
    { events := ev ++ [.writeOut (serializeResponse (hd body))],
      dispatched := some body, closed := true, outcome := .done,
      head := some h }
  | .methodNotAllowed =>
    { events := ev ++ [.writeOut (serializeResponse
        { code := 405, body := "Method Not Allowed".data, headers := [] })],
      dispatched := none, closed := true, outcome := .done, head := some h }
  | .notFound =>
    { events := ev ++ [.writeOut (serializeResponse
        { code := 404, body := "Not Found".data, headers := [] })],
      dispatched := none, closed := true, outcome := .done, head := some h }

/-- Definition of `SimpleApp::handle_client` (lines 178-285) as a function from the
route table and the socket contents to the observable trace.  The
initial read has capacity 65536 (line 179); a failed initial read
closes immediately with no write (line 181); then the head is parsed
from those bytes alone, the interim continue line is written if the
`Expect` flag was set, the body is materialized according to the
framing flags, and the response is dispatched, serialized and written
before the close. -/
def handle_client (routes : List (Route Handler)) (k : Socket) : Trace :=
  let r0 := sockRead 65536 k
  let first := r0.1
  let k1 := r0.2
  if first = [] then
    { events := [], dispatched := none, closed := true, outcome := .done,
      head := none }
  else
    match parseHead first with
    | .error _ =>
      { events := [], dispatched := none, closed := false, outcome := .exn,
        head := none }
    | .ok h =>
      let ev0 : List Event :=
        if h.fields.has_expect_continue then [.interim contResp] else []
      if h.fields.has_chunked then
        let rb := read_chunked_body h.ss k1
        let body := rb.1
        let reads := rb.2.2
        if body = [] ∧ 0 < h.fields.content_length then
          { events := ev0 ++ reads.map Event.read ++ [.writeOut errChunked],
            dispatched := none, closed := true, outcome := .done,
            head := some h }
        else
          dispatchAndRespond routes h body (ev0 ++ reads.map Event.read)
      else if 0 < h.fields.content_length then
        let pr :=
          if 0 < h.ss.gcount then
            let stream_available := h.ss.gcount
            let to_copy := min stream_available h.fields.content_length
            istreamReadN h.ss to_copy
          else ([], h.ss)
        let pre := pr.1
        let already_read := if 0 < h.ss.gcount then pr.2.gcount else 0
        let rc := readCLLoop (h.fields.content_length - already_read) pre k1 []
        match rc.1 with
        | none =>
          { events := ev0 ++ rc.2.2.map Event.read ++ [.writeOut errIncomplete],
            dispatched := none, closed := true, outcome := .done,
            head := some h }
        | some body =>
          dispatchAndRespond routes h body (ev0 ++ rc.2.2.map Event.read)
      else
        dispatchAndRespond routes h [] ev0

/-! ## The sample application (the route table registered by
`src/ia-cpp/src/main.cpp`): `GET /health`, `OPTIONS /predict`,
`POST /predict`.  The handler bodies are collaborators outside the
core; representative pure handlers are used. -/

/-- A representative `POST` handler echoing the body it received. -/
def echoH : Handler := fun b => { code := 200, body := b, headers := [] }

/-- The health handler of `main.cpp`: `200 "ok"`. -/
def okH : Handler := fun _ => { code := 200, body := "ok".data, headers := [] }

/-- The route table built exactly as `main.cpp` registers its routes. -/
def sampleRoutes : List (Route Handler) :=
  add_route (add_route (add_route [] "/health".data .GET okH)
    "/predict".data .OPTIONS okH) "/predict".data .POST echoH

/-! ## Event counting helpers -/

/-- Is this event one of the response writes (lines 225, 248, 283)? -/
def isWriteOut : Event → Bool
  | .writeOut _ => true
  | _ => false

/-- Is this event the interim `100 Continue` write (line 214)? -/
def isInterim : Event → Bool
  | .interim _ => true
  | _ => false

/-- Number of response write attempts in an event list. -/
def countWriteOut (l : List Event) : Nat := l.countP isWriteOut

/-- Number of interim `100 Continue` writes in an event list. -/
def countInterim (l : List Event) : Nat := l.countP isInterim

theorem countWriteOut_append (l₁ l₂ : List Event) :
    countWriteOut (l₁ ++ l₂) = countWriteOut l₁ + countWriteOut l₂ :=
  List.countP_append _ _ _

theorem countWriteOut_reads (l : List (List Char)) :
    countWriteOut (l.map Event.read) = 0 := by
  induction l with
  | nil => rfl
  | cons a t ih =>
    simp only [List.map_cons, countWriteOut, List.countP_cons] at ih ⊢
    simpa [isWriteOut] using ih

/-- Lines 256-283 always append exactly one response write to the
accumulated events, close the connection and return normally; the
handler body is recorded exactly when the resolution found one. -/
theorem dispatchAndRespond_spec (routes : List (Route Handler)) (h : Head)
    (body : List Char) (ev : List Event) :
    ∃ (w : List Char), dispatchAndRespond routes h body ev =
      { events := ev ++ [.writeOut w],
        dispatched :=
          (match resolve routes h.path (methodOfToken h.method) with
            | .handler _ => some body
            | _ => none),
        closed := true, outcome := .done, head := some h } := by
  unfold dispatchAndRespond
  cases resolve routes h.path (methodOfToken h.method) <;> exact ⟨_, rfl⟩

/-! ## Concrete request inputs used by the claims -/

/-- A plain CRLF-framed `POST` with a declared `Content-Length` and the
whole body in the initial read. -/
def reqCL5 : List Char :=
  ("POST /predict HTTP/1.1\r\nContent-Length: 5\r\n\r\nhello").data

/-- A CRLF-framed chunked request whose first chunk-size line `zz` is
not valid hexadecimal. -/
def reqBadChunk : List Char :=
  ("POST /predict HTTP/1.1\r\nTransfer-Encoding: chunked\r\n\r\nzz\r\njunk").data

/-- A CRLF-framed request with a malformed `Content-Length` value. -/
def reqBadCLcrlf : List Char :=
  ("POST /predict HTTP/1.1\r\nContent-Length: abc\r\n\r\n").data

/-- The same malformed `Content-Length`, but with an LF-terminated
request line, which is the only framing under which the header loop of
lines 193-209 actually reaches the header lines. -/
def reqBadCLlf : List Char :=
  ("POST /predict HTTP/1.1\nContent-Length: abc\r\n\r\n").data

/-- An LF-request-line `POST` with `Content-Length: 5` whose first
segment already carries three body bytes. -/
def reqCL5lfSplit : List Char :=
  ("POST /predict HTTP/1.1\nContent-Length: 5\r\n\r\nhel").data

/-- A CRLF-framed request carrying `Expect: 100-continue`. -/
def reqExpectCrlf : List Char :=
  ("POST /predict HTTP/1.1\r\nExpect: 100-continue\r\nContent-Length: 5\r\n\r\nhello").data

/-- An LF-request-line request carrying `Expect: 100-continue` (the
framing under which the header is actually parsed). -/
def reqExpectLf : List Char :=
  ("POST /predict HTTP/1.1\nExpect: 100-continue\r\n\r\n").data

/-- An unknown method token on a registered path. -/
def reqDelete : List Char := ("DELETE /health HTTP/1.1\r\n\r\n").data

/-- A well-formed health check. -/
def reqHealth : List Char := ("GET /health HTTP/1.1\r\n\r\n").data

/-! ## Registration lists (for the router claim) -/

/-- One `register(path, method, handler)` call. -/
abbrev Registration (α : Type) := List Char × HTTPMethod × α

/-- A route table built by a sequence of `add_route` calls starting
from the empty table, exactly as `main.cpp` builds it at startup. -/
def buildRoutes {α : Type} (regs : List (Registration α)) : List (Route α) :=
  regs.foldl (fun rs t => add_route rs t.1 t.2.1 t.2.2) []

/-- The handler of the last registration for exactly `(p, m)`. -/
def lastReg? {α : Type} : List (Registration α) → List Char → HTTPMethod → Option α
  | [], _, _ => none
  | t :: rest, p, m =>
    match lastReg? rest p m with
    | some h => some h
    | none => if t.1 = p ∧ t.2.1 = m then some t.2.2 else none

/-- Was some handler registered under path `p` (any method)? -/
def hasPath {α : Type} (regs : List (Registration α)) (p : List Char) : Bool :=
  regs.any (fun t => decide (t.1 = p))

/-- Degrade a resolution that found the path: a registered handler
stays, everything else becomes `405 Method Not Allowed`. -/
def collapse405 {α : Type} : ResolveResult α → ResolveResult α
  | .handler h => .handler h
  | _ => .methodNotAllowed

/-! ## Chunked-encoding reference constructions (for the decoder claim) -/

/-- Lower-case hexadecimal digit character. -/
def hexChar (n : Nat) : Char :=
  if n < 10 then Char.ofNat (48 + n) else Char.ofNat (87 + n)

/-- Lower-case hexadecimal digit characters of `n`. -/
def hexDigits (n : Nat) : List Char :=
  if _h : n < 16 then [hexChar n]
  else hexDigits (n / 16) ++ [hexChar (n % 16)]
  termination_by n
  decreasing_by
    exact Nat.div_lt_self (by omega) (by omega)

/-- Wire encoding of a chunk list: each chunk as
`<hex size>\r\n<data>\r\n`, terminated by the zero-size chunk. -/
def encodeChunks : List (List Char) → List Char
  | [] => ("0\r\n\r\n").data
  | c :: rest =>
    hexDigits c.length ++ ("\r\n").data ++ c ++ ("\r\n").data ++ encodeChunks rest

/-! ## Substring checking (used to inspect serialized responses) -/

/-- Does `hay` start with `needle`? -/
def leadsWith : List Char → List Char → Bool
  | [], _ => true
  | _ :: _, [] => false
  | a :: as, b :: bs => a = b && leadsWith as bs

/-- Does `needle` occur contiguously anywhere inside `hay`? -/
def containsSub (needle : List Char) : List Char → Bool
  | [] => leadsWith needle []
  | l@(_ :: t) => leadsWith needle l || containsSub needle t

/-- A handler response carrying its own conflicting `Content-Length`
header. -/
def c5resp : response :=
  { code := 200, body := "ab".data,
    headers := [("Content-Length".data, "999".data)] }

/-! ## Structure theorems about `handle_client` -/

/-- Exhaustive shape of a `handle_client` trace: an empty initial read
closes silently; a header-loop exception ends the worker with neither
write nor close; every other path emits the optional interim line, some
body reads, and exactly one final response write before closing. -/
theorem handle_client_shape (routes : List (Route Handler)) (k : Socket) :
    if (sockRead 65536 k).1 = [] then
      handle_client routes k =
        { events := [], dispatched := none, closed := true, outcome := .done,
          head := none }
    else
      match parseHead (sockRead 65536 k).1 with
      | .error _ =>
        handle_client routes k =
          { events := [], dispatched := none, closed := false, outcome := .exn,
            head := none }
      | .ok h => ∃ (reads : List (List Char)) (w : List Char)
            (d : Option (List Char)),
          handle_client routes k =
            { events := (if h.fields.has_expect_continue then
                  [Event.interim contResp] else [])
                ++ reads.map Event.read ++ [Event.writeOut w],
              dispatched := d, closed := true, outcome := .done,
              head := some h } := by
  by_cases hfirst : (sockRead 65536 k).1 = []
  · rw [if_pos hfirst]
    simp only [handle_client]
    rw [if_pos hfirst]
  · rw [if_neg hfirst]
    cases hp : parseHead (sockRead 65536 k).1 with
    | error e =>
      simp only [handle_client, hp]
      rw [if_neg hfirst]
    | ok h =>
      simp only [handle_client, hp]
      rw [if_neg hfirst]
      by_cases hc : h.fields.has_chunked = true
      · rw [if_pos hc]
        by_cases herr : (read_chunked_body h.ss (sockRead 65536 k).2).1 = []
            ∧ 0 < h.fields.content_length
        · rw [if_pos herr]
          exact ⟨(read_chunked_body h.ss (sockRead 65536 k).2).2.2,
            errChunked, none, rfl⟩
        · rw [if_neg herr]
          obtain ⟨w, hw⟩ := dispatchAndRespond_spec routes h
            (read_chunked_body h.ss (sockRead 65536 k).2).1
            ((if h.fields.has_expect_continue then [Event.interim contResp] else [])
              ++ ((read_chunked_body h.ss (sockRead 65536 k).2).2.2).map Event.read)
          refine ⟨(read_chunked_body h.ss (sockRead 65536 k).2).2.2, w,
            (dispatchAndRespond routes h
              (read_chunked_body h.ss (sockRead 65536 k).2).1
              ((if h.fields.has_expect_continue then [Event.interim contResp] else [])
                ++ ((read_chunked_body h.ss (sockRead 65536 k).2).2.2).map Event.read)).dispatched,
            ?_⟩
          rw [hw]
      · rw [if_neg hc]
        by_cases hcl : 0 < h.fields.content_length
        · rw [if_pos hcl]
          set pr := (if 0 < h.ss.gcount then
              istreamReadN h.ss (min h.ss.gcount h.fields.content_length)
            else ([], h.ss)) with hpr
          set rc := readCLLoop
            (h.fields.content_length -
              (if 0 < h.ss.gcount then pr.2.gcount else 0))
            pr.1 (sockRead 65536 k).2 [] with hrc
          cases hrc1 : rc.1 with
          | none =>
            simp only [hrc1]
            exact ⟨rc.2.2, errIncomplete, none, rfl⟩
          | some body =>
            simp only [hrc1]
            obtain ⟨w, hw⟩ := dispatchAndRespond_spec routes h body
              ((if h.fields.has_expect_continue then [Event.interim contResp] else [])
                ++ (rc.2.2).map Event.read)
            refine ⟨rc.2.2, w,
              (dispatchAndRespond routes h body
                ((if h.fields.has_expect_continue then [Event.interim contResp] else [])
                  ++ (rc.2.2).map Event.read)).dispatched, ?_⟩
            rw [hw]
        · rw [if_neg hcl]
          obtain ⟨w, hw⟩ := dispatchAndRespond_spec routes h []
            (if h.fields.has_expect_continue then [Event.interim contResp] else [])
          refine ⟨[], w,
            (dispatchAndRespond routes h []
              (if h.fields.has_expect_continue then [Event.interim contResp] else [])).dispatched,
            ?_⟩
          rw [hw]
          simp only [List.map_nil, List.append_nil]

/-! ## Claim C4 -/

/-- C4, counterexample: a connection whose initial `read` delivers no
bytes (client closed immediately) is an accepted connection that is
closed with **zero** response write attempts, refuting "for every
accepted connection, exactly one response write attempt is made". -/
theorem C4_no_write_on_empty_read :
    countWriteOut (handle_client sampleRoutes []).events = 0
    ∧ (handle_client sampleRoutes []).events = []
    ∧ (handle_client sampleRoutes []).closed = true := ⟨rfl, rfl, rfl⟩

/-- C4 (amended): every connection that finishes `handle_client`
normally is closed, and makes exactly one response write attempt
provided the initial read delivered bytes; a connection whose initial
read fails is closed without any write; and the uncaught
`Content-Length` parse exception ends the worker with neither a write
nor a close. -/
theorem C4_write_close_discipline (routes : List (Route Handler)) (k : Socket) :
    ((handle_client routes k).outcome = .done →
      (handle_client routes k).closed = true)
    ∧ ((handle_client routes k).outcome = .exn →
        (handle_client routes k).closed = false
        ∧ (handle_client routes k).events = [])
    ∧ ((sockRead 65536 k).1 = [] →
        (handle_client routes k).events = []
        ∧ (handle_client routes k).closed = true)
    ∧ ((sockRead 65536 k).1 ≠ [] → (handle_client routes k).outcome = .done →
        countWriteOut (handle_client routes k).events = 1) := by
  have hs := handle_client_shape routes k
  by_cases hfirst : (sockRead 65536 k).1 = []
  · rw [if_pos hfirst] at hs
    rw [hs]
    exact ⟨fun _ => rfl, fun hcon => by simp at hcon,
      fun _ => ⟨rfl, rfl⟩, fun hne _ => absurd hfirst hne⟩
  · rw [if_neg hfirst] at hs
    cases hp : parseHead (sockRead 65536 k).1 with
    | error e =>
      rw [hp] at hs
      rw [hs]
      exact ⟨fun hcon => by simp at hcon, fun _ => ⟨rfl, rfl⟩,
        fun hf => absurd hf hfirst, fun _ hcon => by simp at hcon⟩
    | ok h =>
      rw [hp] at hs
      obtain ⟨reads, w, d, ht⟩ := hs
      rw [ht]
      refine ⟨fun _ => rfl, fun hcon => by simp at hcon,
        fun hf => absurd hf hfirst, fun _ _ => ?_⟩
      simp only [countWriteOut_append, countWriteOut_reads]
      by_cases he : h.fields.has_expect_continue = true
      · rw [if_pos he]
        simp [countWriteOut, List.countP_cons, isWriteOut]
      · rw [if_neg he]
        simp [countWriteOut, List.countP_cons, isWriteOut]

/-- Witness for C4: a well-formed health check produces exactly one
response write. -/
theorem C4_write_close_discipline_witness :
    countWriteOut (handle_client sampleRoutes [reqHealth]).events = 1 :=
  (C4_write_close_discipline sampleRoutes [reqHealth]).2.2.2 (by decide) rfl

/-! ## Claim C9 -/

/-- C9, counterexample: a CRLF-framed request that carries
`Expect: 100-continue` receives **no** interim `100 Continue` write at
all (the header loop exits on the request line's leftover `"\r"`
before parsing any header), refuting "for every request carrying an
Expect header ... the server writes an interim 100 Continue ...
exactly once". -/
theorem C9_expect_ignored_crlf :
    countInterim (handle_client sampleRoutes [reqExpectCrlf]).events = 0
    ∧ (handle_client sampleRoutes [reqExpectCrlf]).events
        = [Event.writeOut (serializeResponse (echoH []))] := ⟨rfl, rfl⟩

/-- C9 (amended): only when the `Expect` header line is actually parsed
(which requires an LF-terminated request line) is the interim
`100 Continue` written — then exactly once, as the first socket
interaction, before any body-byte read and before the response
write. -/
theorem C9_interim_once_when_parsed (routes : List (Route Handler))
    (k : Socket) (h : Head)
    (hp : parseHead (sockRead 65536 k).1 = .ok h)
    (hx : h.fields.has_expect_continue = true)
    (hne : (sockRead 65536 k).1 ≠ []) :
    ∃ (reads : List (List Char)) (w : List Char),
      (handle_client routes k).events =
        Event.interim contResp :: (reads.map Event.read ++ [Event.writeOut w]) := by
  have hs := handle_client_shape routes k
  rw [if_neg hne, hp] at hs
  obtain ⟨reads, w, d, ht⟩ := hs
  rw [ht]
  rw [hx]
  exact ⟨reads, w, by simp⟩

/-- Witness for C9: an LF-request-line request with
`Expect: 100-continue` gets the interim line first. -/
theorem C9_interim_once_when_parsed_witness :
    ∃ (reads : List (List Char)) (w : List Char),
      (handle_client sampleRoutes [reqExpectLf]).events =
        Event.interim contResp :: (reads.map Event.read ++ [Event.writeOut w]) :=
  C9_interim_once_when_parsed sampleRoutes [reqExpectLf] _ rfl rfl (by decide)

/-! ## Claim C10 -/

/-- C10: the request line and headers are parsed exclusively from the
single initial socket read: the head recorded in the trace is a
function of the first delivered segment alone (`parseHead`), and when
the request `GET /health HTTP/1.1` is split after `GET /heal`, the
server parses path `/heal` from the truncated first segment and
answers `404`, while the unsplit request reaches the handler. -/
theorem C10_headers_from_first_read_only :
    (∀ (routes : List (Route Handler)) (k : Socket),
      (sockRead 65536 k).1 ≠ [] →
      (handle_client routes k).head =
        (match parseHead (sockRead 65536 k).1 with
         | .ok h => some h
         | .error _ => none))
    ∧ ((handle_client sampleRoutes
          ["GET /heal".data, "th HTTP/1.1\r\n\r\n".data]).head.map
            (fun hd => hd.path)) = some ("/heal").data
    ∧ (handle_client sampleRoutes
          ["GET /heal".data, "th HTTP/1.1\r\n\r\n".data]).events
        = [Event.writeOut (serializeResponse
            { code := 404, body := "Not Found".data, headers := [] })]
    ∧ (handle_client sampleRoutes [reqHealth]).events
        = [Event.writeOut (serializeResponse (okH []))] := by
  refine ⟨?_, rfl, rfl, rfl⟩
  intro routes k hne
  have hs := handle_client_shape routes k
  rw [if_neg hne] at hs
  cases hp : parseHead (sockRead 65536 k).1 with
  | error e =>
    rw [hp] at hs
    rw [hs]
  | ok h =>
    rw [hp] at hs
    obtain ⟨reads, w, d, ht⟩ := hs
    rw [ht]

/-- Witness for C10: the head of a concrete well-formed request equals
its `parseHead`. -/
theorem C10_headers_from_first_read_only_witness :
    (handle_client sampleRoutes [reqHealth]).head =
      (match parseHead (sockRead 65536 [reqHealth]).1 with
       | .ok h => some h
       | .error _ => none) :=
  C10_headers_from_first_read_only.1 sampleRoutes [reqHealth] (by decide)

/-! ## Claim C1 -/

/-- C1: evaluation of the code at the failing input.  A CRLF-framed
request declaring `Content-Length: 5` with body `hello` delivered in
the initial read is dispatched with an **empty** body (the header loop
of lines 193-209 exits on the request line's leftover `"\r"`, so
`content_length` stays `0`); and even under LF framing, where the
length is parsed, the body bytes buffered in the initial read are
dropped (`ss.gcount()` is `0` at line 235 because the free
`std::getline` never sets it), so the worker re-reads from the socket,
consumes the later segment `lo` and then fails with the synthesized
`400` instead of assembling `hello`. -/
theorem C1_content_length_body_dropped :
    (handle_client sampleRoutes [reqCL5]).dispatched = some []
    ∧ ((handle_client sampleRoutes [reqCL5]).head.map
        (fun hd => hd.fields.content_length)) = some 0
    ∧ (handle_client sampleRoutes [reqCL5lfSplit, "lo".data]).dispatched = none
    ∧ (handle_client sampleRoutes [reqCL5lfSplit, "lo".data]).events
        = [Event.read "lo".data, Event.writeOut errIncomplete] := by
  refine ⟨rfl, rfl, ?_, ?_⟩ <;>
    simp [handle_client, parseHead, readCLLoop, reqCL5lfSplit, sockRead,
      extractToken, headerScan, parseHeaderLine, trimValue, stoul,
      to_upper, toUpperChar, isSpaceC, digitVal?, istreamReadN]

/-! ## Claim C3 -/

/-- C3: evaluation of the code at the failing input.  A chunked request
whose first chunk-size line is `zz` does **not** get a `400`: the
header loop never sees `Transfer-Encoding` under CRLF framing, the
request is treated as bodyless, and the registered handler **is**
dispatched (with an empty body) and its `200` response written. -/
theorem C3_malformed_chunk_dispatches :
    (handle_client sampleRoutes [reqBadChunk]).dispatched = some []
    ∧ (handle_client sampleRoutes [reqBadChunk]).events
        = [Event.writeOut (serializeResponse (echoH []))] := ⟨rfl, rfl⟩

/-! ## Claim C6 -/

/-- C6, counterexample: a request whose `Content-Length` value is `abc`
(LF-terminated request line, so the header line is actually parsed)
makes the worker end in the uncaught-`std::stoul`-exception state: no
`400` response is written, the connection is not closed by the worker,
and the exception escapes the worker (`std::terminate` kills the whole
process), refuting "reported as a 400-class response ... and fully
recovered within that connection's worker". -/
theorem C6_uncaught_exception :
    (handle_client sampleRoutes [reqBadCLlf]).outcome = .exn
    ∧ (handle_client sampleRoutes [reqBadCLlf]).events = []
    ∧ (handle_client sampleRoutes [reqBadCLlf]).closed = false := ⟨rfl, rfl, rfl⟩

/-- Splitting `takeWhile`/`dropWhile` at the first element that fails
the predicate. -/
theorem splitAt_pred {α : Type} {p : α → Bool} (c : α) (r : List α)
    (hc : p c = false) :
    ∀ (l : List α), (∀ x ∈ l, p x = true) →
      (l ++ c :: r).takeWhile p = l ∧ (l ++ c :: r).dropWhile p = c :: r := by
  intro l
  induction l with
  | nil =>
    intro _
    simp [List.takeWhile_cons, List.dropWhile_cons, hc]
  | cons a t ih =>
    intro hl
    have ha := hl a (List.mem_cons_self a t)
    obtain ⟨ht1, ht2⟩ := ih (fun x hx => hl x (List.mem_cons_of_mem a hx))
    simp [List.cons_append, List.takeWhile_cons, List.dropWhile_cons,
      ha, ht1, ht2]

/-- Formatted extraction of a whitespace-free token that is followed by
a whitespace character: the token is extracted whole and the delimiter
stays in the stream. -/
theorem extractToken_spec (tok : List Char) (c : Char) (r : List Char)
    (g : Nat) (hne : tok ≠ []) (hts : ∀ x ∈ tok, isSpaceC x = false)
    (hc : isSpaceC c = true) :
    extractToken { rem := tok ++ c :: r, gcount := g, failed := false }
      = (tok, { rem := c :: r, gcount := g, failed := false }) := by
  obtain ⟨a, t, rfl⟩ := List.exists_cons_of_ne_nil hne
  have hdropSpace : List.dropWhile isSpaceC (a :: (t ++ c :: r))
      = a :: (t ++ c :: r) := by
    rw [List.dropWhile_cons, hts a (List.mem_cons_self a t)]
    simp
  have hsplit := @splitAt_pred Char (fun x => !isSpaceC x) c r
    (by simp [hc]) (a :: t) (fun x hx => by simp [hts x hx])
  simp only [List.cons_append] at hsplit
  rw [extractToken]
  simp only [List.cons_append, hdropSpace, hsplit.1, hsplit.2]
  simp

/-- Formatted extraction skips a leading whitespace character. -/
theorem extractToken_skip_space (c : Char) (r : List Char) (g : Nat)
    (hc : isSpaceC c = true) :
    extractToken { rem := c :: r, gcount := g, failed := false }
      = extractToken { rem := r, gcount := g, failed := false } := by
  rw [extractToken, extractToken]
  simp [List.dropWhile_cons, hc]

/-- For every CRLF-terminated request line — whatever its three tokens
and whatever follows the CRLF — the header loop exits at once on the
leftover `"\r"`, so no header line of `rest` is ever parsed: the
framing fields keep their defaults (`content_length = 0`, not chunked,
no expect-continue) and the whole header section together with any body
bytes stays in the stream. -/
theorem parseHead_crlf (m p v rest : List Char)
    (hm : m ≠ []) (hp : p ≠ []) (hv : v ≠ [])
    (hms : ∀ c ∈ m, isSpaceC c = false)
    (hps : ∀ c ∈ p, isSpaceC c = false)
    (hvs : ∀ c ∈ v, isSpaceC c = false) :
    parseHead (m ++ ' ' :: (p ++ ' ' :: (v ++ '\r' :: '\n' :: rest)))
      = .ok { method := m, path := p, version := v, fields := {},
              ss := { rem := rest, gcount := 0, failed := false } } := by
  have h1 := extractToken_spec m ' ' (p ++ ' ' :: (v ++ '\r' :: '\n' :: rest))
    0 hm hms rfl
  have h2skip := extractToken_skip_space ' ' (p ++ ' ' :: (v ++ '\r' :: '\n' :: rest))
    0 rfl
  have h2 := extractToken_spec p ' ' (v ++ '\r' :: '\n' :: rest) 0 hp hps rfl
  have h3skip := extractToken_skip_space ' ' (v ++ '\r' :: '\n' :: rest) 0 rfl
  have h3 := extractToken_spec v '\r' ('\n' :: rest) 0 hv hvs rfl
  have hscan : headerScan ('\r' :: '\n' :: rest) [] {} = .ok ({}, rest) := rfl
  rw [parseHead]
  simp only [h1, h2skip, h2, h3skip, h3]
  simp [hscan]

/-- The header loop throws precisely on a header line whose key is
`Content-Length` (case-insensitively) and whose trimmed value
`std::stoul` cannot parse. -/
theorem parseHeaderLine_error_iff (line : List Char) (f : HeadFields) :
    parseHeaderLine line f = .error () ↔
      ∃ pos, line.findIdx? (· = ':') = some pos
        ∧ to_upper (line.take pos) = ("CONTENT-LENGTH").data
        ∧ stoul 10 (trimValue (line.drop (pos + 1))) = none := by
  rw [parseHeaderLine]
  cases hfind : line.findIdx? (· = ':') with
  | none => simp
  | some pos =>
    dsimp only
    by_cases hkey : to_upper (line.take pos) = ("CONTENT-LENGTH").data
    · rw [if_pos hkey]
      cases hst : stoul 10 (trimValue (line.drop (pos + 1))) with
      | none => simp [hkey, hst]
      | some n => simp [hkey, hst]
    · rw [if_neg hkey]
      split_ifs <;> simp [hkey]

/-- C6 (amended): a malformed `Content-Length` is never reported as a
`400`-class response nor recovered within the worker.  Universally:
(1) whenever the header loop of any request throws, the worker makes no
write at all, never reaches `close`, and ends in the escaped-exception
state (`std::terminate` kills the whole process), for every route table
and every socket; (2) the header loop throws precisely on a parsed
`Content-Length` line whose value `std::stoul` rejects; (3) under CRLF
framing — any request line, any header section — the header lines
(including any malformed `Content-Length` among them) are never parsed
at all, and (4) such a request is processed as if it had no body: no
body bytes are read and a single response is written over a head whose
framing fields are all defaults. -/
theorem C6_malformed_content_length_behavior :
    (∀ (routes : List (Route Handler)) (k : Socket),
      (sockRead 65536 k).1 ≠ [] →
      parseHead (sockRead 65536 k).1 = .error () →
      handle_client routes k =
        { events := [], dispatched := none, closed := false,
          outcome := .exn, head := none })
    ∧ (∀ (line : List Char) (f : HeadFields),
        parseHeaderLine line f = .error () ↔
          ∃ pos, line.findIdx? (· = ':') = some pos
            ∧ to_upper (line.take pos) = ("CONTENT-LENGTH").data
            ∧ stoul 10 (trimValue (line.drop (pos + 1))) = none)
    ∧ (∀ (m p v rest : List Char), m ≠ [] → p ≠ [] → v ≠ [] →
        (∀ c ∈ m, isSpaceC c = false) → (∀ c ∈ p, isSpaceC c = false) →
        (∀ c ∈ v, isSpaceC c = false) →
        parseHead (m ++ ' ' :: (p ++ ' ' :: (v ++ '\r' :: '\n' :: rest)))
          = .ok { method := m, path := p, version := v, fields := {},
                  ss := { rem := rest, gcount := 0, failed := false } })
    ∧ (∀ (routes : List (Route Handler)) (k' : Socket)
        (m p v rest : List Char), m ≠ [] → p ≠ [] → v ≠ [] →
        (∀ c ∈ m, isSpaceC c = false) → (∀ c ∈ p, isSpaceC c = false) →
        (∀ c ∈ v, isSpaceC c = false) →
        (m ++ ' ' :: (p ++ ' ' :: (v ++ '\r' :: '\n' :: rest))).length ≤ 65536 →
        ∃ (w : List Char) (d : Option (List Char)),
          handle_client routes
              ((m ++ ' ' :: (p ++ ' ' :: (v ++ '\r' :: '\n' :: rest))) :: k') =
            { events := [Event.writeOut w], dispatched := d, closed := true,
              outcome := .done,
              head := some { method := m, path := p, version := v, fields := {},
                             ss := { rem := rest, gcount := 0,
                                     failed := false } } }) := by
  refine ⟨?_, parseHeaderLine_error_iff, parseHead_crlf, ?_⟩
  · intro routes k hne herr
    have hs := handle_client_shape routes k
    rw [if_neg hne] at hs
    rw [herr] at hs
    exact hs
  · intro routes k' m p v rest hm hp hv hms hps hvs hlen
    have hsegne : (m ++ ' ' :: (p ++ ' ' :: (v ++ '\r' :: '\n' :: rest))) ≠ [] := by
      cases m with
      | nil => exact absurd rfl hm
      | cons a t => simp
    have hsock : sockRead 65536
        ((m ++ ' ' :: (p ++ ' ' :: (v ++ '\r' :: '\n' :: rest))) :: k')
        = ((m ++ ' ' :: (p ++ ' ' :: (v ++ '\r' :: '\n' :: rest))), k') := by
      simp only [sockRead, if_pos hlen]
    have hph := parseHead_crlf m p v rest hm hp hv hms hps hvs
    have hhc : handle_client routes
        ((m ++ ' ' :: (p ++ ' ' :: (v ++ '\r' :: '\n' :: rest))) :: k')
        = dispatchAndRespond routes
            { method := m, path := p, version := v, fields := {},
              ss := { rem := rest, gcount := 0, failed := false } } [] [] := by
      simp only [handle_client, hsock]
      rw [if_neg hsegne, hph]
      rfl
    obtain ⟨w, hw⟩ := dispatchAndRespond_spec routes
      { method := m, path := p, version := v, fields := {},
        ss := { rem := rest, gcount := 0, failed := false } } [] []
    refine ⟨w, (match resolve routes p (methodOfToken m) with
      | ResolveResult.handler _ => some []
      | _ => none), ?_⟩
    rw [hhc, hw]
    simp only [List.nil_append]

/-- Witness for C6: each universal conjunct exercised at a concrete
input — the LF-framed malformed request, the literal malformed header
line, and the CRLF-framed request carrying `Content-Length: abc`. -/
theorem C6_malformed_content_length_behavior_witness :
    handle_client sampleRoutes [reqBadCLlf] =
      { events := [], dispatched := none, closed := false,
        outcome := .exn, head := none }
    ∧ parseHeaderLine ("Content-Length: abc\r").data {} = .error ()
    ∧ parseHead (("POST").data ++ ' ' :: (("/predict").data ++ ' '
        :: (("HTTP/1.1").data ++ '\r' :: '\n'
            :: ("Content-Length: abc\r\n\r\n").data)))
        = .ok { method := ("POST").data, path := ("/predict").data,
                version := ("HTTP/1.1").data, fields := {},
                ss := { rem := ("Content-Length: abc\r\n\r\n").data,
                        gcount := 0, failed := false } }
    ∧ ∃ (w : List Char) (d : Option (List Char)),
        handle_client sampleRoutes
            [("POST").data ++ ' ' :: (("/predict").data ++ ' '
              :: (("HTTP/1.1").data ++ '\r' :: '\n'
                  :: ("Content-Length: abc\r\n\r\n").data))] =
          { events := [Event.writeOut w], dispatched := d, closed := true,
            outcome := .done,
            head := some { method := ("POST").data, path := ("/predict").data,
                           version := ("HTTP/1.1").data, fields := {},
                           ss := { rem := ("Content-Length: abc\r\n\r\n").data,
                                   gcount := 0, failed := false } } } :=
  ⟨C6_malformed_content_length_behavior.1 sampleRoutes [reqBadCLlf]
      (by decide) rfl,
    (C6_malformed_content_length_behavior.2.1
        ("Content-Length: abc\r").data {}).mpr ⟨14, rfl, rfl, rfl⟩,
    C6_malformed_content_length_behavior.2.2.1 ("POST").data ("/predict").data
      ("HTTP/1.1").data ("Content-Length: abc\r\n\r\n").data
      (by decide) (by decide) (by decide) (by decide) (by decide) (by decide),
    C6_malformed_content_length_behavior.2.2.2 sampleRoutes []
      ("POST").data ("/predict").data ("HTTP/1.1").data
      ("Content-Length: abc\r\n\r\n").data
      (by decide) (by decide) (by decide) (by decide) (by decide) (by decide)
      (by decide)⟩

/-! ## Claim C8 -/

/-- C8, counterexample: the request `DELETE /health` — a method token
outside `GET`/`POST`/`OPTIONS` on a registered path — does **not**
degrade to `404`/`405`: lines 261-263 default every unknown token to
`GET`, so the registered `GET /health` handler is invoked and its
`200` response written. -/
theorem C8_delete_invokes_get_handler :
    (handle_client sampleRoutes [reqDelete]).dispatched = some []
    ∧ (handle_client sampleRoutes [reqDelete]).events
        = [Event.writeOut (serializeResponse (okH []))] := ⟨rfl, rfl⟩

/-- C8 (amended): every method token other than `POST` and `OPTIONS`
is routed exactly as `GET`: it dispatches to the path's `GET` handler
when one is registered, `405` when the path is registered without
`GET`, `404` when the path is unregistered. -/
theorem C8_unknown_methods_become_GET (tok : List Char)
    (routes : List (Route Handler)) (p : List Char)
    (h1 : tok ≠ "POST".data) (h2 : tok ≠ "OPTIONS".data) :
    methodOfToken tok = .GET
    ∧ resolve routes p (methodOfToken tok) = resolve routes p HTTPMethod.GET := by
  have hg : methodOfToken tok = .GET := by
    simp [methodOfToken, h1, h2]
  exact ⟨hg, by rw [hg]⟩

/-- Witness for C8 at the token `DELETE`. -/
theorem C8_unknown_methods_become_GET_witness :
    methodOfToken ("DELETE").data = .GET
    ∧ resolve sampleRoutes ("/health").data (methodOfToken ("DELETE").data)
        = resolve sampleRoutes ("/health").data HTTPMethod.GET :=
  C8_unknown_methods_become_GET ("DELETE").data sampleRoutes ("/health").data
    (by decide) (by decide)

/-! ## Claim C5 -/

/-- C5, counterexample: serializing a response whose header map carries
`Content-Length: 999` over the two-byte body `ab` emits **both** the
computed `Content-Length: 2` and the caller's conflicting
`Content-Length: 999` (the loop of lines 278-280 emits every stored
header and nothing removes the caller's value), refuting "the
serialized bytes carry no conflicting Content-Length value". -/
theorem C5_conflicting_content_length_emitted :
    containsSub ("Content-Length: 2\r\n").data (serializeResponse c5resp) = true
    ∧ containsSub ("Content-Length: 999\r\n").data (serializeResponse c5resp) = true
    ∧ c5resp.body.length = 2 := ⟨rfl, rfl, rfl⟩

/-- C5 (amended): the serializer always emits a computed
`Content-Length` equal to the exact byte length of the body, but a
caller-supplied `Content-Length` header is emitted *in addition* in
the header block rather than overridden, so the serialized bytes can
carry a conflicting value. -/
theorem C5_content_length_always_computed (r : response) :
    (∃ (pre post : List Char), serializeResponse r =
      pre ++ ("Content-Length: ".data ++ decDigits r.body.length
        ++ "\r\n".data) ++ post)
    ∧ (∀ kv, kv ∈ r.headers → ∃ (pre post : List Char),
        serializeResponse r = pre ++ headerLine kv.1 kv.2 ++ post) := by
  constructor
  · refine ⟨"HTTP/1.1 ".data ++ intToDec r.code ++ " \r\n".data
      ++ (if mapFind r.headers "Content-Type".data = none then
            "Content-Type: text/plain\r\n".data
          else []),
      (r.headers.flatMap fun kv => headerLine kv.1 kv.2)
        ++ "\r\n".data ++ r.body, ?_⟩
    simp [serializeResponse, List.append_assoc]
  · intro kv hmem
    obtain ⟨s, t, hst⟩ := List.append_of_mem hmem
    refine ⟨"HTTP/1.1 ".data ++ intToDec r.code ++ " \r\n".data
      ++ (if mapFind r.headers "Content-Type".data = none then
            "Content-Type: text/plain\r\n".data
          else [])
      ++ ("Content-Length: ".data ++ decDigits r.body.length ++ "\r\n".data)
      ++ (s.flatMap fun kv => headerLine kv.1 kv.2),
      (t.flatMap fun kv => headerLine kv.1 kv.2) ++ "\r\n".data ++ r.body, ?_⟩
    rw [serializeResponse, hst]
    simp [List.flatMap_append, List.flatMap_cons, List.append_assoc]

/-- Witness for C5: the conflicting header of `c5resp` is emitted
verbatim in the header block. -/
theorem C5_content_length_always_computed_witness :
    ("Content-Length".data, "999".data) ∈ c5resp.headers
    ∧ ∃ (pre post : List Char), serializeResponse c5resp =
        pre ++ headerLine ("Content-Length").data ("999").data ++ post :=
  ⟨by decide, (C5_content_length_always_computed c5resp).2
    (("Content-Length").data, ("999").data) (by decide)⟩

/-! ## Claim C7 -/

theorem resolve_cons_neg {α : Type} (r : Route α) (rs : List (Route α))
    (p : List Char) (m : HTTPMethod) (h : ¬ r.path = p) :
    resolve (r :: rs) p m = resolve rs p m := by
  have hf : List.find? (fun r => decide (r.path = p)) (r :: rs) =
      List.find? (fun r => decide (r.path = p)) rs :=
    List.find?_cons_of_neg rs (by simpa using h)
  simp only [resolve, hf]

theorem resolve_cons_pos {α : Type} (r : Route α) (rs : List (Route α))
    (p : List Char) (m : HTTPMethod) (h : r.path = p) :
    resolve (r :: rs) p m =
      (match r.handlers m with
        | some hd => .handler hd
        | none => .methodNotAllowed) := by
  have hf : List.find? (fun r => decide (r.path = p)) (r :: rs) = some r :=
    List.find?_cons_of_pos rs (by simpa using h)
  simp only [resolve, hf]

/-- Registering `(p, m, h)` makes `(p, m)` resolve to `h`. -/
theorem resolve_add_route_same {α : Type} (rs : List (Route α))
    (p : List Char) (m : HTTPMethod) (h : α) :
    resolve (add_route rs p m h) p m = .handler h := by
  induction rs with
  | nil =>
    rw [add_route,
      resolve_cons_pos ⟨p, fun mm => if mm = m then some h else none⟩ [] p m rfl]
    simp
  | cons r rest ih =>
    by_cases hrp : r.path = p
    · rw [add_route, if_pos hrp,
        resolve_cons_pos ⟨r.path, fun mm => if mm = m then some h else r.handlers mm⟩
          rest p m hrp]
      simp
    · rw [add_route, if_neg hrp, resolve_cons_neg r (add_route rest p m h) p m hrp]
      exact ih

/-- Registering under one path does not change resolution of any other
path. -/
theorem resolve_add_route_other {α : Type} (rs : List (Route α))
    (p : List Char) (m : HTTPMethod) (h : α) (p' : List Char)
    (m' : HTTPMethod) (hne : ¬ p' = p) :
    resolve (add_route rs p m h) p' m' = resolve rs p' m' := by
  induction rs with
  | nil =>
    rw [add_route,
      resolve_cons_neg ⟨p, fun mm => if mm = m then some h else none⟩ [] p' m'
        (fun hc => hne hc.symm)]
  | cons r rest ih =>
    by_cases hrp : r.path = p
    · rw [add_route, if_pos hrp]
      have hr' : ¬ r.path = p' := by
        rw [hrp]
        exact fun hc => hne hc.symm
      rw [resolve_cons_neg ⟨r.path, fun mm => if mm = m then some h else r.handlers mm⟩
          rest p' m' hr',
        resolve_cons_neg r rest p' m' hr']
    · rw [add_route, if_neg hrp]
      by_cases hrp' : r.path = p'
      · rw [resolve_cons_pos r (add_route rest p m h) p' m' hrp',
          resolve_cons_pos r rest p' m' hrp']
      · rw [resolve_cons_neg r (add_route rest p m h) p' m' hrp',
          resolve_cons_neg r rest p' m' hrp']
        exact ih

/-- Registering `(p, m)` leaves other methods of `p` as they were,
except that a fresh path turns "not found" into "method not
allowed". -/
theorem resolve_add_route_other_method {α : Type} (rs : List (Route α))
    (p : List Char) (m : HTTPMethod) (h : α) (m' : HTTPMethod)
    (hne : ¬ m' = m) :
    resolve (add_route rs p m h) p m' = collapse405 (resolve rs p m') := by
  induction rs with
  | nil =>
    rw [add_route,
      resolve_cons_pos ⟨p, fun mm => if mm = m then some h else none⟩ [] p m' rfl]
    simp [hne, resolve, collapse405]
  | cons r rest ih =>
    by_cases hrp : r.path = p
    · rw [add_route, if_pos hrp,
        resolve_cons_pos ⟨r.path, fun mm => if mm = m then some h else r.handlers mm⟩
          rest p m' hrp,
        resolve_cons_pos r rest p m' hrp]
      simp only [if_neg hne]
      cases r.handlers m' <;> simp [collapse405]
    · rw [add_route, if_neg hrp, resolve_cons_neg r (add_route rest p m h) p m' hrp,
        resolve_cons_neg r rest p m' hrp]
      exact ih

theorem collapse405_idem {α : Type} (x : ResolveResult α) :
    collapse405 (collapse405 x) = collapse405 x := by
  cases x <;> rfl

/-- Resolution after a block of registrations on top of a base table:
the last registration for the exact pair wins; otherwise a registered
path degrades the base result to `405`, and an unregistered path
leaves the base result untouched. -/
theorem resolve_build_from {α : Type} :
    ∀ (regs : List (Registration α)) (rs : List (Route α))
      (p : List Char) (m : HTTPMethod),
      resolve (regs.foldl (fun rs t => add_route rs t.1 t.2.1 t.2.2) rs) p m =
        match lastReg? regs p m with
        | some h => .handler h
        | none =>
          if hasPath regs p then collapse405 (resolve rs p m)
          else resolve rs p m := by
  intro regs
  induction regs with
  | nil =>
    intro rs p m
    simp [lastReg?, hasPath]
  | cons t rest ih =>
    intro rs p m
    rw [List.foldl_cons, ih (add_route rs t.1 t.2.1 t.2.2) p m]
    cases hA : lastReg? rest p m with
    | some h =>
      simp only [lastReg?, hA]
    | none =>
      simp only [lastReg?, hA]
      by_cases ht1 : t.1 = p
      · by_cases ht2 : t.2.1 = m
        · conv_rhs => rw [if_pos (show t.1 = p ∧ t.2.1 = m from ⟨ht1, ht2⟩)]
          rw [ht1, ht2, resolve_add_route_same]
          by_cases hB : hasPath rest p = true
          · rw [if_pos hB]
            rfl
          · rw [if_neg hB]
        · conv_rhs => rw [if_neg
            (show ¬(t.1 = p ∧ t.2.1 = m) from fun hc => ht2 hc.2)]
          have hp2 : hasPath (t :: rest) p = true := by
            simp [hasPath, List.any_cons, ht1]
          conv_rhs => rw [if_pos hp2]
          rw [ht1, resolve_add_route_other_method rs p t.2.1 t.2.2 m
            (fun hc => ht2 hc.symm)]
          by_cases hB : hasPath rest p = true
          · rw [if_pos hB, collapse405_idem]
          · rw [if_neg hB]
      · conv_rhs => rw [if_neg
          (show ¬(t.1 = p ∧ t.2.1 = m) from fun hc => ht1 hc.1)]
        have hp2 : hasPath (t :: rest) p = hasPath rest p := by
          simp [hasPath, List.any_cons, ht1]
        rw [resolve_add_route_other rs t.1 t.2.1 t.2.2 p m
          (fun hc => ht1 hc.symm)]
        rw [hp2]

/-- C7: over any registration sequence, `resolve` on the resulting
table returns the handler of the **last** registration for the exact
`(path, method)` pair; when the path was registered but never with
that method the outcome is `405 Method Not Allowed`; when the path was
never registered the outcome is `404 Not Found` — a distinct value. -/
theorem C7_resolve_last_registration {α : Type}
    (regs : List (Registration α)) (p : List Char) (m : HTTPMethod) :
    resolve (buildRoutes regs) p m =
      match lastReg? regs p m with
      | some h => .handler h
      | none =>
        if hasPath regs p then ResolveResult.methodNotAllowed
        else ResolveResult.notFound := by
  rw [buildRoutes, resolve_build_from regs [] p m]
  cases lastReg? regs p m with
  | some h => rfl
  | none =>
    by_cases hp : hasPath regs p = true
    · rw [if_pos hp, if_pos hp]
      rfl
    · rw [if_neg hp, if_neg hp]
      rfl

/-! ## Claim C2: chunked decoding -/

theorem hexDigits_ne_nil (n : Nat) : hexDigits n ≠ [] := by
  rw [hexDigits]
  split
  · simp
  · simp

theorem hexDigits_mem {n : Nat} {c : Char} (hc : c ∈ hexDigits n) :
    ∃ m, m < 16 ∧ c = hexChar m := by
  induction n using Nat.strong_induction_on with
  | _ n ih =>
    rw [hexDigits] at hc
    by_cases hlt : n < 16
    · rw [dif_pos hlt] at hc
      simp only [List.mem_singleton] at hc
      exact ⟨n, hlt, hc⟩
    · rw [dif_neg hlt] at hc
      rcases List.mem_append.mp hc with hl | hr
      · exact ih (n / 16) (Nat.div_lt_self (by omega) (by omega)) hl
      · simp only [List.mem_singleton] at hr
        exact ⟨n % 16, Nat.mod_lt _ (by omega), hr⟩

theorem hexChar_digitVal {m : Nat} (hm : m < 16) :
    digitVal? 16 (hexChar m) = some m := by
  interval_cases m <;> decide

theorem hexChar_facts {m : Nat} (hm : m < 16) :
    isSpaceC (hexChar m) = false ∧ hexChar m ≠ '-' ∧ hexChar m ≠ '+'
      ∧ hexChar m ≠ '\r' ∧ hexChar m ≠ 'x' ∧ hexChar m ≠ 'X' := by
  interval_cases m <;> decide

/-- Generic: `takeWhile` keeps a list all of whose elements satisfy the
predicate. -/
theorem takeWhile_of_all {α : Type} {p : α → Bool} :
    ∀ {l : List α}, (∀ c ∈ l, p c = true) → l.takeWhile p = l := by
  intro l
  induction l with
  | nil => intro _; rfl
  | cons a t ih =>
    intro h
    rw [List.takeWhile_cons, h a (List.mem_cons_self a t)]
    simp only [ih (fun c hc => h c (List.mem_cons_of_mem a hc))]
    simp

theorem hexDigits_foldl (n : Nat) :
    (hexDigits n).foldl (fun a c => a * 16 + (digitVal? 16 c).getD 0) 0 = n := by
  induction n using Nat.strong_induction_on with
  | _ n ih =>
    rw [hexDigits]
    by_cases hlt : n < 16
    · rw [dif_pos hlt]
      simp [hexChar_digitVal hlt]
    · rw [dif_neg hlt]
      rw [List.foldl_append]
      rw [ih (n / 16) (Nat.div_lt_self (by omega) (by omega))]
      simp only [List.foldl_cons, List.foldl_nil,
        hexChar_digitVal (Nat.mod_lt n (show 0 < 16 by omega))]
      simp only [Option.getD_some]
      omega

/-- Parsing with `std::stoul(..., 16)` inverts the hexadecimal printer (values below
`ULONG_MAX`). -/
theorem stoul_hexDigits {n : Nat} (hn : n < 2 ^ 64) :
    stoul 16 (hexDigits n) = some n := by
  obtain ⟨a, t, hat⟩ := List.exists_cons_of_ne_nil (hexDigits_ne_nil n)
  have hnospace : ∀ c ∈ hexDigits n, isSpaceC c = false := by
    intro c hc
    obtain ⟨m, hm, rfl⟩ := hexDigits_mem hc
    exact (hexChar_facts hm).1
  have hdigit : ∀ c ∈ hexDigits n, (digitVal? 16 c).isSome = true := by
    intro c hc
    obtain ⟨m, hm, rfl⟩ := hexDigits_mem hc
    rw [hexChar_digitVal hm]
    rfl
  obtain ⟨ma, hma, haeq⟩ := hexDigits_mem (hat ▸ List.mem_cons_self a t)
  have hane : ¬ a = '-' := haeq ▸ (hexChar_facts hma).2.1
  have hane2 : ¬ a = '+' := haeq ▸ (hexChar_facts hma).2.2.1
  have hdrop : List.dropWhile isSpaceC (hexDigits n) = a :: t := by
    rw [hat, List.dropWhile_cons,
      hnospace a (hat ▸ List.mem_cons_self a t)]
    simp
  have hstrip : strip0x (a :: t) = a :: t := by
    cases t with
    | nil => rfl
    | cons x r =>
      obtain ⟨mx, hmx, hxeq⟩ := hexDigits_mem
        (hat ▸ List.mem_cons_of_mem a (List.mem_cons_self x r))
      have hxne : ¬ x = 'x' := hxeq ▸ (hexChar_facts hmx).2.2.2.2.1
      have hxne2 : ¬ x = 'X' := hxeq ▸ (hexChar_facts hmx).2.2.2.2.2
      simp [strip0x, hxne, hxne2]
  have htake : List.takeWhile (fun c => (digitVal? 16 c).isSome) (a :: t)
      = a :: t := by
    rw [← hat]
    exact takeWhile_of_all hdigit
  have hfold : List.foldl (fun acc c => acc * 16 + (digitVal? 16 c).getD 0) 0
      (a :: t) = n := by
    rw [← hat]
    exact hexDigits_foldl n
  have hnn : ¬ n ≥ 2 ^ 64 := by omega
  rw [stoul]
  simp only [hdrop, if_neg hane, if_neg hane2]
  simp [hstrip, htake, hfold, hnn]
  omega

theorem startsCRLF_cons_ne {a : Char} (l : List Char) (ha : a ≠ '\r') :
    startsCRLF (a :: l) = false := by
  cases l with
  | nil => rfl
  | cons b t => simp [startsCRLF, ha]

/-- Finding CRLF on a CR-free prefix followed by an explicit CRLF. -/
theorem findCRLF_append {l : List Char} (hl : ∀ c ∈ l, c ≠ '\r')
    (r : List Char) :
    findCRLF (l ++ '\r' :: '\n' :: r) = some l.length := by
  induction l with
  | nil => rfl
  | cons a t ih =>
    rw [List.cons_append, findCRLF]
    rw [startsCRLF_cons_ne _ (hl a (List.mem_cons_self a t))]
    simp only [Bool.false_eq_true, if_false]
    rw [ih (fun c hc => hl c (List.mem_cons_of_mem a hc))]
    simp [List.length_cons]

/-- The chunk loop decodes a well-formed wire encoding held entirely in
the working buffer: each chunk payload is appended in order and the
zero-size chunk terminates the loop. -/
theorem chunkLoop_encode :
    ∀ (cs : List (List Char)) (body : List Char),
      (∀ c ∈ cs, c ≠ [] ∧ c.length < 2 ^ 64) →
      chunkLoop body (encodeChunks cs) [] [] = (body ++ cs.flatten, [], []) := by
  intro cs
  induction cs with
  | nil =>
    intro body _
    have hfind : findCRLF (encodeChunks []) = some 1 := rfl
    have hstoul : stoul 16 ((encodeChunks []).take 1) = some 0 := rfl
    rw [chunkLoop]
    split
    · rename_i hf
      rw [hfind] at hf
      simp at hf
    · rename_i pos hf
      rw [hfind] at hf
      have hpos : pos = 1 := by
        simpa using hf.symm
      subst hpos
      simp only [hstoul]
      simp [encodeChunks]
  | cons c rest ih =>
    intro body hcs
    have hc := hcs c (List.mem_cons_self c rest)
    have hrest : ∀ c' ∈ rest, c' ≠ [] ∧ c'.length < 2 ^ 64 :=
      fun c' hc' => hcs c' (List.mem_cons_of_mem c hc')
    have hnocr : ∀ ch ∈ hexDigits c.length, ch ≠ '\r' := by
      intro ch hch
      obtain ⟨m, hm, rfl⟩ := hexDigits_mem hch
      exact (hexChar_facts hm).2.2.2.1
    have hEnc : encodeChunks (c :: rest) =
        hexDigits c.length
          ++ ('\r' :: '\n' :: (c ++ '\r' :: '\n' :: encodeChunks rest)) := by
      rw [encodeChunks]
      simp [List.append_assoc]
    have hfind : findCRLF (encodeChunks (c :: rest))
        = some (hexDigits c.length).length := by
      rw [hEnc]
      exact findCRLF_append hnocr _
    have htake : (encodeChunks (c :: rest)).take (hexDigits c.length).length
        = hexDigits c.length := by
      rw [hEnc]
      exact List.take_left _ _
    have hdrop2 : (encodeChunks (c :: rest)).drop
        ((hexDigits c.length).length + 2)
        = c ++ '\r' :: '\n' :: encodeChunks rest := by
      rw [hEnc, ← List.drop_drop, List.drop_left]
      rfl
    have hstoul : stoul 16 ((encodeChunks (c :: rest)).take
        (hexDigits c.length).length) = some c.length := by
      rw [htake]
      exact stoul_hexDigits hc.2
    have hlen0 : ¬ c.length = 0 := by
      intro hzero
      exact hc.1 (List.length_eq_zero.mp hzero)
    have hrcd : readChunkData c.length []
        (c ++ '\r' :: '\n' :: encodeChunks rest) [] []
        = (some (c, '\r' :: '\n' :: encodeChunks rest), [], []) := by
      rw [readChunkData]
      rw [if_pos (show ([] : List Char).length < c.length by
        simp only [List.length_nil]
        omega)]
      rw [if_pos (show c.length - ([] : List Char).length
          ≤ (c ++ '\r' :: '\n' :: encodeChunks rest).length by
        simp)]
      simp only [List.length_nil, Nat.sub_zero, List.nil_append]
      rw [List.take_left, List.drop_left]
    rw [chunkLoop]
    split
    · rename_i hf
      rw [hfind] at hf
      simp at hf
    · rename_i pos hf
      rw [hfind] at hf
      have hpos : pos = (hexDigits c.length).length := by
        simpa using hf.symm
      subst hpos
      simp only [hstoul]
      simp only [if_neg hlen0]
      split
      · rename_i hrc
        rw [hdrop2, hrcd] at hrc
        simp at hrc
      · rename_i cd buf2 k' reads' hrc
        rw [hdrop2, hrcd] at hrc
        simp only [Prod.mk.injEq, Option.some.injEq] at hrc
        obtain ⟨⟨rfl, rfl⟩, rfl, rfl⟩ := hrc
        have h2le : 2 ≤ ('\r' :: '\n' :: encodeChunks rest).length := by
          simp only [List.length_cons]
          omega
        simp only [if_pos h2le]
        have hdp : ('\r' :: '\n' :: encodeChunks rest).drop 2
            = encodeChunks rest := rfl
        simp only [hdp]
        simp only [ih (body ++ c) hrest]
        simp [List.append_assoc]

/-- C2: chunked-mode decoding appends each hex-size-prefixed chunk's
payload in order and terminates at a zero-size chunk (stated for every
well-formed chunk sequence delivered in the working buffer via the
reference encoder); in particular `"4\r\nWiki\r\n5\r\npedia\r\n0\r\n\r\n"`
decodes to `"Wikipedia"` and `"0\r\n\r\n"` decodes to the empty
body. -/
theorem C2_chunked_decode :
    (∀ (cs : List (List Char)), (∀ c ∈ cs, c ≠ [] ∧ c.length < 2 ^ 64) →
      (read_chunked_body { rem := encodeChunks cs } []).1 = cs.flatten)
    ∧ (read_chunked_body
        { rem := ("4\r\nWiki\r\n5\r\npedia\r\n0\r\n\r\n").data } []).1
        = ("Wikipedia").data
    ∧ (read_chunked_body { rem := ("0\r\n\r\n").data } []).1 = [] := by
  have hgen : ∀ (cs : List (List Char)),
      (∀ c ∈ cs, c ≠ [] ∧ c.length < 2 ^ 64) →
      (read_chunked_body { rem := encodeChunks cs } []).1 = cs.flatten := by
    intro cs hcs
    rw [read_chunked_body]
    simp only [drainStream]
    simp only [Bool.false_eq_true, if_false]
    rw [chunkLoop_encode cs [] hcs]
    simp
  refine ⟨hgen, ?_, ?_⟩
  · have henc : ("4\r\nWiki\r\n5\r\npedia\r\n0\r\n\r\n").data
        = encodeChunks [("Wiki").data, ("pedia").data] := by
      simp [encodeChunks, hexDigits, hexChar]
    rw [henc, hgen [("Wiki").data, ("pedia").data] (by decide)]
    rfl
  · have henc : ("0\r\n\r\n").data = encodeChunks [] := rfl
    rw [henc, hgen [] (by simp)]
    rfl

/-- Witness for C2: decoding the encoding of the single chunk `Wi`. -/
theorem C2_chunked_decode_witness :
    (∀ c ∈ [("Wi").data], c ≠ ([] : List Char) ∧ c.length < 2 ^ 64)
    ∧ (read_chunked_body { rem := encodeChunks [("Wi").data] } []).1
        = [("Wi").data].flatten :=
  ⟨by decide, C2_chunked_decode.1 [("Wi").data] (by decide)⟩

end Crow
